import Mathlib

/-!
Shallow embedding of `sys/suit/transport/mqtt_sn.c` (SUIT firmware update
transport over MQTT-SN).  Pure string/parsing helpers model the C string
functions used by the source (`atoi`, `strrchr`, suffix checks); the global
mutable state of the transport (block counters, manifest reassembly buffer,
posted thread messages) is modelled by explicit state passing; the external
collaborators (emcute gateway session, storage backend, manifest parser,
boot-slot validation) are modelled as result oracles supplied as inputs.
-/

namespace SuitMqttSn

/-- CONFIG_SUIT_MQTT_SN_BLOCKSIZE from `suit/transport/mqtt_sn.h`. -/
def CONFIG_SUIT_MQTT_SN_BLOCKSIZE : Nat := 64

/-- SUIT_MANIFEST_BUFSIZE from `mqtt_sn.c` (capacity of `_manifest_buf`). -/
def SUIT_MANIFEST_BUFSIZE : Nat := 640

/-- SUIT_TOPIC_MAX from `mqtt_sn.c` (capacity of `_manifest_topic` / `_fw_topic`). -/
def SUIT_TOPIC_MAX : Nat := 128

/-- TOPIC_MAXLEN from `mqtt_sn.c` (capacity of a `topics[]` slot). -/
def TOPIC_MAXLEN : Nat := 64

/-- Characters skipped by C `atoi` before parsing (isspace). -/
def isSpaceChar (c : Char) : Bool :=
  c == ' ' || c == '\t' || c == '\n' || c == '\r' || c == '\x0b' || c == '\x0c'

/-- Decimal digit value of a character, as used by `atoi`. -/
def digitVal? (c : Char) : Option Nat :=
  if '0' ≤ c ∧ c ≤ '9' then some (c.toNat - 48) else none

/-- Digit-accumulation loop of C `atoi`: consume leading digits, stop at the
first non-digit. -/
def atoiLoop : List Char → Int → Int
  | [], acc => acc
  | c :: rest, acc =>
    match digitVal? c with
    | some d => atoiLoop rest (10 * acc + (d : Int))
    | none => acc

/-- Sign handling of C `atoi`. -/
def atoiSigned : List Char → Int
  | [] => 0
  | c :: rest =>
    if c = '-' then - atoiLoop rest 0
    else if c = '+' then atoiLoop rest 0
    else atoiLoop (c :: rest) 0

/-- Model of C `atoi` on a character list. -/
def atoi (s : List Char) : Int :=
  atoiSigned (s.dropWhile isSpaceChar)

/-- Model of `strrchr(topic, '/')` followed by taking the suffix after the
last slash: returns the segment after the final `/`, or `none` when the
string contains no `/`. -/
def afterLastSlash? : List Char → Option (List Char)
  | [] => none
  | c :: rest =>
    match afterLastSlash? rest with
    | some t => some t
    | none => if c = '/' then some rest else none

/-- Result of `_parse_block_publish`: the C function's `int` return value
together with the (possibly updated) values of the two `int` globals passed
in by pointer. -/
structure ParseOut where
  ret : Int
  num_blocks : Int
  expected_block : Int
deriving DecidableEq

/-- Model of `_parse_block_publish` (mqtt_sn.c lines 172-203): locate the last
`/` of the topic (fail with -1 if absent); if the topic ends in `/` it is a
size announcement: store `atoi(data)` into `*num_blocks` and return -1;
otherwise parse the trailing segment as the block number, reject it with -1
unless it equals `*expected_block`, and on acceptance advance
`*expected_block` (resetting it to 0 after the final block). -/
def _parse_block_publish (topic_name : List Char) (data : List Char)
    (num_blocks expected_block : Int) : ParseOut :=
  match afterLastSlash? topic_name with
  | none => ⟨-1, num_blocks, expected_block⟩
  | some tail =>
    if topic_name.getLast? = some '/' then
      ⟨-1, atoi data, expected_block⟩
    else
      let block_num := atoi tail
      if block_num = expected_block then
        ⟨block_num, num_blocks,
          if block_num = num_blocks - 1 then 0 else block_num + 1⟩
      else
        ⟨-1, num_blocks, expected_block⟩

/-- Decimal digit character (for building the ASCII decimal topics and size
payloads the publisher sends on the wire). -/
def digitChar (d : Nat) : Char :=
  match d with
  | 0 => '0'
  | 1 => '1'
  | 2 => '2'
  | 3 => '3'
  | 4 => '4'
  | 5 => '5'
  | 6 => '6'
  | 7 => '7'
  | 8 => '8'
  | _ => '9'

/-- Fuel-driven most-significant-digit-first decimal rendering. -/
def natCharsCore : Nat → Nat → List Char
  | 0, _ => []
  | fuel + 1, n =>
    if n = 0 then [] else natCharsCore fuel (n / 10) ++ [digitChar (n % 10)]

/-- ASCII decimal rendering of a natural number (zero-based block indices and
block-count payloads, no leading zeros), as the wire contract prescribes. -/
def natChars (n : Nat) : List Char :=
  if n = 0 then ['0'] else natCharsCore (n + 1) n

/-- Wire topic for block `k`: `<parent>/<k>`. -/
def blockTopic (parent : List Char) (k : Nat) : List Char :=
  parent ++ '/' :: natChars k

/-- Wire topic for the size announcement: `<parent>/` (trailing slash). -/
def sizeTopic (parent : List Char) : List Char :=
  parent ++ ['/']

/-- Bytes of a payload reinterpreted as a C string (as `atoi((char *)data)`
does in the size branch). -/
def charsOfBytes (l : List Nat) : List Char :=
  l.map (fun b => Char.ofNat (b % 256))

/-- ASCII decimal byte payload announcing block count `n`. -/
def natBytes (n : Nat) : List Nat :=
  (natChars n).map Char.toNat

/-- Model of `memcpy(buf + off, data, data.length)` on a byte-addressed
memory viewed as a function from offsets to byte values. -/
def memcpyAt (buf : Nat → Nat) (off : Nat) (data : List Nat) : Nat → Nat :=
  fun i => if off ≤ i ∧ i < off + data.length then data.getD (i - off) 0 else buf i

/-- Mutable state touched by the manifest receive path of `mqtt_sn.c`: the
globals `num_manifest_blocks`, `expected_manifest_block`, `_manifest_buf`,
`current_manifest_block` and the queue of `SUIT_MSG_MANIFEST` message values
posted to the SUIT thread. -/
structure ManifestState where
  num_manifest_blocks : Int
  expected_manifest_block : Int
  manifest_buf : Nat → Nat
  current_num : Nat
  current_len : Nat
  msgs : List Int

/-- The zero-initialised C globals at program start. -/
def initialManifestState : ManifestState :=
  { num_manifest_blocks := 0
    expected_manifest_block := 0
    manifest_buf := fun _ => 0
    current_num := 0
    current_len := 0
    msgs := [] }

/-- Model of `suit_mqtt_sn_on_pub_manifest` (mqtt_sn.c lines 253-276): run
`_parse_block_publish` on the topic; when it accepts a block (return value
`>= 0`), record the block number and length in `current_manifest_block`,
`memcpy` the payload into `_manifest_buf` at offset
`block_num * CONFIG_SUIT_MQTT_SN_BLOCKSIZE` (no bound check), and post a
`SUIT_MSG_MANIFEST` message carrying the block number. -/
def suit_mqtt_sn_on_pub_manifest (topic : List Char) (payload : List Nat)
    (s : ManifestState) : ManifestState :=
  let r := _parse_block_publish topic (charsOfBytes payload)
      s.num_manifest_blocks s.expected_manifest_block
  if 0 ≤ r.ret then
    { num_manifest_blocks := r.num_blocks
      expected_manifest_block := r.expected_block
      manifest_buf := memcpyAt s.manifest_buf (r.ret.toNat * CONFIG_SUIT_MQTT_SN_BLOCKSIZE) payload
      current_num := r.ret.toNat % 65536
      current_len := payload.length
      msgs := s.msgs ++ [r.ret] }
  else
    { s with
      num_manifest_blocks := r.num_blocks
      expected_manifest_block := r.expected_block }

/-- Deliver manifest-block publishes for consecutive indices starting at `k`,
one `suit_mqtt_sn_on_pub_manifest` callback per payload. -/
def deliverBlocks (parent : List Char) : List (List Nat) → Nat → ManifestState → ManifestState
  | [], _, s => s
  | p :: rest, k, s =>
    deliverBlocks parent rest (k + 1)
      (suit_mqtt_sn_on_pub_manifest (blockTopic parent k) p s)

/-- A full in-order manifest transfer: the size announcement on
`<parent>/` followed by blocks `0..ps.length-1` on `<parent>/<i>`. -/
def runManifestTransfer (parent : List Char) (sizePayload : List Nat)
    (ps : List (List Nat)) (s : ManifestState) : ManifestState :=
  deliverBlocks parent ps 0
    (suit_mqtt_sn_on_pub_manifest (sizeTopic parent) sizePayload s)

/-- Sum of the payload lengths of a block sequence. -/
def sumLens (ps : List (List Nat)) : Nat :=
  (ps.map List.length).sum

/-- Completion test applied by `_suit_mqtt_sn_thread` to each
`SUIT_MSG_MANIFEST` message: `(uint16_t)m.content.value == num_manifest_blocks - 1`. -/
def manifestMsgCompletes (num_manifest_blocks : Int) (v : Int) : Bool :=
  v % 65536 = num_manifest_blocks - 1

/-- Total length handed to `suit_parse` on completion:
`(num_manifest_blocks - 1) * CONFIG_SUIT_MQTT_SN_BLOCKSIZE + current_manifest_block.len`. -/
def parseLen (num_manifest_blocks : Int) (current_len : Nat) : Int :=
  (num_manifest_blocks - 1) * (CONFIG_SUIT_MQTT_SN_BLOCKSIZE : Int) + (current_len : Int)

/-- Outcome of one `emcute_sub` call, as seen by `sub()` in mqtt_sn.c:
success (`EMCUTE_OK`), gateway disconnected (`EMCUTE_GWDISCON`), or any other
error code. -/
inductive EmcuteRes
  | ok
  | gwdiscon
  | err
deriving DecidableEq

/-- Trace of the subscribe/reconnect `goto sub` loop of `sub()` (mqtt_sn.c
lines 137-157): the function's return value (`none` while the prescribed
outcome sequence is not exhausted, i.e. the loop is still running), plus the
number of `emcute_sub` calls and `emcute_con` reconnect attempts made. -/
structure SubOut where
  ret : Option Int
  subAttempts : Nat
  reconAttempts : Nat
deriving DecidableEq

/-- Model of the `sub:` retry loop of `sub()` (mqtt_sn.c lines 137-157),
driven by the oracle of successive `emcute_sub` outcomes and successive
`emcute_con` reconnect outcomes: `EMCUTE_OK` returns 0; a non-disconnect
error returns 1; `EMCUTE_GWDISCON` triggers one reconnect to
`last_known_good_gateway`, and on reconnect success the code jumps back to
`sub:` (retrying the subscribe), while on reconnect failure it returns 1. -/
def subLoop : List EmcuteRes → List Bool → Nat → Nat → SubOut
  | [], _, sa, ra => ⟨none, sa, ra⟩
  | r :: rs, cons, sa, ra =>
    match r with
    | .ok => ⟨some 0, sa + 1, ra⟩
    | .err => ⟨some 1, sa + 1, ra⟩
    | .gwdiscon =>
      match cons with
      | [] => ⟨none, sa + 1, ra⟩
      | c :: cs => if c then subLoop rs cs (sa + 1) (ra + 1) else ⟨some 1, sa + 1, ra + 1⟩

/-- Model of `sub()` (mqtt_sn.c lines 106-157): a topic whose length exceeds
`TOPIC_MAXLEN` is rejected with return value 1 before any `emcute_sub`
attempt; otherwise the subscribe/reconnect loop runs. -/
def subFn (topic : List Char) (subs : List EmcuteRes) (cons : List Bool) : SubOut :=
  if TOPIC_MAXLEN < topic.length then ⟨some 1, 0, 0⟩
  else subLoop subs cons 0 0

/-- The literal characters of the `"mqtt://"` scheme marker. -/
def mqttScheme : List Char :=
  ['m', 'q', 't', 't', ':', '/', '/']

/-- Result of `_suit_handle_topic`: its return value (through `sub`, `none`
while the gateway oracle is exhausted) and the topic name actually passed to
`sub`, if any. -/
structure HandleOut where
  ret : Option Int
  subTopic : Option (List Char)
deriving DecidableEq

/-- Model of `_suit_handle_topic` (mqtt_sn.c lines 159-170): if
`strncmp(topic, "mqtt://", 7)` is non-zero the topic is rejected with
`-EINVAL` (= -22) and nothing is subscribed; otherwise the 7-character scheme
marker is skipped, `"/#"` is appended, and `sub` is called on the result. -/
def _suit_handle_topic (topic : List Char) (subs : List EmcuteRes)
    (cons : List Bool) : HandleOut :=
  if topic.take 7 = mqttScheme then
    let t := topic.drop 7 ++ ['/', '#']
    ⟨(subFn t subs cons).ret, some t⟩
  else
    ⟨some (-22), none⟩

/-- Effective C string stored in `_fw_topic` by `suit_mqtt_sn_fetch`
(mqtt_sn.c lines 333-334): `strncpy(_fw_topic, topic, SUIT_TOPIC_MAX)`
followed by `_fw_topic[SUIT_TOPIC_MAX - 1] = '\0'` yields the first
`SUIT_TOPIC_MAX - 1` characters of the argument. -/
def fetchTopicCopy (topic : List Char) : List Char :=
  topic.take (SUIT_TOPIC_MAX - 1)

/-- Topic-handling phase of `suit_mqtt_sn_fetch` (mqtt_sn.c lines 333-335):
the topic argument is copied (truncating) into `_fw_topic` and passed to
`_suit_handle_topic`; the return value of `_suit_handle_topic` is discarded
by the caller. -/
def suit_mqtt_sn_fetch_subscribe (topic : List Char) (subs : List EmcuteRes)
    (cons : List Bool) : HandleOut :=
  _suit_handle_topic (fetchTopicCopy topic) subs cons

/-- Calls made to the external storage backend by `suit_mqtt_sn_fetch`. -/
inductive StorageCall
  | write (offset len : Nat)
  | finish
deriving DecidableEq

/-- Messages received by the `msg_receive` loop of `suit_mqtt_sn_fetch`.  A
firmware message carries the `current_fw_block` contents set by the receive
callback, together with the oracle results of `suit_storage_write` and
`suit_storage_finish` for that block. -/
inductive FetchMsg
  | trigger
  | manifest (v : Int)
  | firmware (num : Nat) (len : Nat) (writeRes : Int) (finishRes : Int)
deriving DecidableEq

/-- Result of the fetch loop: the `int` return value of
`suit_mqtt_sn_fetch` (`none` while the message list is exhausted and the
loop keeps blocking in `msg_receive`), plus the storage-backend calls made. -/
structure FetchOut where
  ret : Option Int
  calls : List StorageCall
deriving DecidableEq

/-- Model of the `while (true) { msg_receive(&m); switch (m.type) ... }` loop
of `suit_mqtt_sn_fetch` (mqtt_sn.c lines 337-400).  `SUIT_MSG_FIRMWARE`
messages are processed: compute `offset = num * CONFIG_SUIT_MQTT_SN_BLOCKSIZE`
and `more = num < num_fw_blocks - 1`; return -1 if the manifest's image size
is unavailable, if `image_size < offset + len` (image overrun), or if this is
the last block and `image_size != offset + len`; otherwise call
`suit_storage_write`, and on the last block also `suit_storage_finish`
(whose result replaces the write result); a non-zero result is returned, a
zero result returns 0 on the last block and otherwise continues the loop.
Every other message type (including `SUIT_MSG_TRIGGER`) falls into the
`default:` branch, which only logs a warning and continues the loop. -/
def suit_mqtt_sn_fetch_loop (imageSize? : Option Nat) (num_fw_blocks : Int) :
    List FetchMsg → List StorageCall → FetchOut
  | [], acc => ⟨none, acc⟩
  | .trigger :: rest, acc => suit_mqtt_sn_fetch_loop imageSize? num_fw_blocks rest acc
  | .manifest _ :: rest, acc => suit_mqtt_sn_fetch_loop imageSize? num_fw_blocks rest acc
  | .firmware num len wres fres :: rest, acc =>
    let offset := num * CONFIG_SUIT_MQTT_SN_BLOCKSIZE
    let more : Bool := (num : Int) < num_fw_blocks - 1
    match imageSize? with
    | none => ⟨some (-1), acc⟩
    | some image_size =>
      if image_size < offset + len then ⟨some (-1), acc⟩
      else if more = false ∧ image_size ≠ offset + len then ⟨some (-1), acc⟩
      else
        let acc1 := acc ++ [StorageCall.write offset len]
        if more = false then
          let acc2 := acc1 ++ [StorageCall.finish]
          if fres ≠ 0 then ⟨some fres, acc2⟩ else ⟨some 0, acc2⟩
        else
          if wres ≠ 0 then ⟨some wres, acc1⟩
          else suit_mqtt_sn_fetch_loop imageSize? num_fw_blocks rest acc1

/-- Action taken by `_suit_mqtt_sn_thread` when handling one
`SUIT_MSG_MANIFEST` message. -/
inductive ThreadAct
  | noAct
  | parseFailed (res : Int)
  | reboot
  | hdrInvalid
deriving DecidableEq

/-- Model of the `SUIT_MSG_MANIFEST` case of `_suit_mqtt_sn_thread`
(mqtt_sn.c lines 494-531): when `(uint16_t)m.content.value` equals
`num_manifest_blocks - 1`, run `suit_parse`; on parse failure log and go back
to waiting; on parse success fetch the other boot slot's header and validate
it with `riotboot_hdr_validate` (0 means valid): on 0 reboot via
`pm_reboot()`, otherwise log "update failed, hdr invalid" and continue
running on the current slot. -/
def manifest_msg_case (num_manifest_blocks : Int) (v : Int)
    (parseRes : Int) (validateRes : Int) : ThreadAct :=
  if v % 65536 = num_manifest_blocks - 1 then
    if parseRes ≠ 0 then .parseFailed parseRes
    else if validateRes = 0 then .reboot
    else .hdrInvalid
  else .noAct

/-! Helper lemmas about decimal digits and the `atoi` model. -/

theorem digit_props (d : Nat) (h : d < 10) :
    digitVal? (digitChar d) = some d ∧ isSpaceChar (digitChar d) = false ∧
    digitChar d ≠ '-' ∧ digitChar d ≠ '+' ∧ digitChar d ≠ '/' ∧
    Char.ofNat ((digitChar d).toNat % 256) = digitChar d := by
  interval_cases d <;> exact (by decide)

theorem natCharsCore_eq (f : Nat) :
    ∀ n, n < f → natCharsCore f n = ((Nat.digits 10 n).map digitChar).reverse := by
  induction f with
  | zero => intro n hn; omega
  | succ f ih =>
    intro n hn
    by_cases h0 : n = 0
    · subst h0; simp [natCharsCore, Nat.digits_zero]
    · have hpos : 0 < n := Nat.pos_of_ne_zero h0
      have hdiv : n / 10 < f := by
        have h1 : n / 10 < n := Nat.div_lt_self hpos (by norm_num)
        omega
      have hdig : Nat.digits 10 n = n % 10 :: Nat.digits 10 (n / 10) :=
        Nat.digits_def' (by norm_num) hpos
      simp only [natCharsCore, if_neg h0, ih (n / 10) hdiv, hdig, List.map_cons,
        List.reverse_cons]

theorem mem_natChars {c : Char} {n : Nat} (h : c ∈ natChars n) :
    ∃ d, d < 10 ∧ c = digitChar d := by
  unfold natChars at h
  by_cases h0 : n = 0
  · rw [if_pos h0] at h
    simp only [List.mem_singleton] at h
    exact ⟨0, by norm_num, h⟩
  · rw [if_neg h0, natCharsCore_eq (n + 1) n (Nat.lt_succ_self n)] at h
    rw [List.mem_reverse, List.mem_map] at h
    obtain ⟨d, hd, hc⟩ := h
    exact ⟨d, Nat.digits_lt_base (by norm_num) hd, hc.symm⟩

theorem natChars_ne_nil (n : Nat) : natChars n ≠ [] := by
  unfold natChars
  by_cases h0 : n = 0
  · rw [if_pos h0]; simp
  · rw [if_neg h0, natCharsCore_eq (n + 1) n (Nat.lt_succ_self n)]
    simp only [ne_eq, List.reverse_eq_nil_iff, List.map_eq_nil_iff]
    exact Nat.digits_ne_nil_iff_ne_zero.mpr h0

theorem slash_not_mem_natChars (n : Nat) : '/' ∉ natChars n := by
  intro h
  obtain ⟨d, hd, hc⟩ := mem_natChars h
  exact (digit_props d hd).2.2.2.2.1 hc.symm

theorem afterLastSlash?_eq_none {t : List Char} (h : '/' ∉ t) :
    afterLastSlash? t = none := by
  induction t with
  | nil => rfl
  | cons c rest ih =>
    have hc : c ≠ '/' := fun hc => h (hc ▸ List.mem_cons_self c rest)
    have hr : '/' ∉ rest := fun hr => h (List.mem_cons_of_mem c hr)
    simp [afterLastSlash?, ih hr, hc]

theorem afterLastSlash?_append (p : List Char) {t : List Char} (h : '/' ∉ t) :
    afterLastSlash? (p ++ '/' :: t) = some t := by
  induction p with
  | nil => simp [afterLastSlash?, afterLastSlash?_eq_none h]
  | cons c p ih => simp [afterLastSlash?, ih]

theorem atoiLoop_map_digitChar (ds : List Nat) (h : ∀ d ∈ ds, d < 10) :
    ∀ acc : Int, atoiLoop (ds.map digitChar) acc =
      List.foldl (fun (a : Int) (d : Nat) => 10 * a + (d : Int)) acc ds := by
  induction ds with
  | nil => intro acc; rfl
  | cons d ds ih =>
    intro acc
    have hd : d < 10 := h d (List.mem_cons_self d ds)
    have hds : ∀ x ∈ ds, x < 10 := fun x hx => h x (List.mem_cons_of_mem d hx)
    simp only [List.map_cons, atoiLoop, (digit_props d hd).1, List.foldl_cons]
    exact ih hds (10 * acc + (d : Int))

theorem foldl_reverse_ofDigits (L : List Nat) :
    ∀ acc : Int, List.foldl (fun (a : Int) (d : Nat) => 10 * a + (d : Int)) acc L.reverse =
      acc * 10 ^ L.length + ((Nat.ofDigits 10 L : Nat) : Int) := by
  induction L with
  | nil =>
    intro acc
    rw [List.reverse_nil, List.foldl_nil, List.length_nil, Nat.ofDigits_nil]
    simp
  | cons d T ih =>
    intro acc
    rw [List.reverse_cons, List.foldl_append, ih acc, Nat.ofDigits_cons]
    simp only [List.foldl_cons, List.foldl_nil, List.length_cons]
    push_cast
    ring

theorem atoi_natChars (n : Nat) : atoi (natChars n) = (n : Int) := by
  by_cases h0 : n = 0
  · subst h0; decide
  · have hrepr : natChars n = (Nat.digits 10 n).reverse.map digitChar := by
      unfold natChars
      rw [if_neg h0, natCharsCore_eq (n + 1) n (Nat.lt_succ_self n), List.map_reverse]
    have hmem : ∀ d ∈ (Nat.digits 10 n).reverse, d < 10 := by
      intro d hd
      exact Nat.digits_lt_base (by norm_num) (List.mem_reverse.mp hd)
    obtain ⟨d, M, hM⟩ :
        ∃ d M, (Nat.digits 10 n).reverse = d :: M := by
      have hne : (Nat.digits 10 n).reverse ≠ [] := by
        simp only [ne_eq, List.reverse_eq_nil_iff]
        exact Nat.digits_ne_nil_iff_ne_zero.mpr h0
      obtain ⟨d, M, h⟩ := List.exists_cons_of_ne_nil hne
      exact ⟨d, M, h⟩
    have hd10 : d < 10 := hmem d (hM ▸ List.mem_cons_self d M)
    have hprops := digit_props d hd10
    unfold atoi
    rw [hrepr, hM, List.map_cons, List.dropWhile_cons, hprops.2.1]
    simp only [Bool.false_eq_true, if_false]
    simp only [atoiSigned]
    rw [if_neg hprops.2.2.1, if_neg hprops.2.2.2.1, ← List.map_cons, ← hM,
      atoiLoop_map_digitChar _ hmem, foldl_reverse_ofDigits]
    simp only [zero_mul, zero_add]
    exact_mod_cast Nat.ofDigits_digits 10 n

theorem charsOfBytes_natBytes (n : Nat) : charsOfBytes (natBytes n) = natChars n := by
  unfold charsOfBytes natBytes
  rw [List.map_map]
  have : ∀ c ∈ natChars n, ((fun b => Char.ofNat (b % 256)) ∘ Char.toNat) c = id c := by
    intro c hc
    obtain ⟨d, hd, hcd⟩ := mem_natChars hc
    subst hcd
    exact (digit_props d hd).2.2.2.2.2
  rw [List.map_congr_left this, List.map_id]

/-! Helper lemmas about `_parse_block_publish` on the wire topics. -/

theorem parse_size_topic (parent data : List Char) (nb eb : Int) :
    _parse_block_publish (sizeTopic parent) data nb eb = ⟨-1, atoi data, eb⟩ := by
  unfold _parse_block_publish sizeTopic
  have h1 : afterLastSlash? (parent ++ ['/']) = some [] := by
    have : ('/' : Char) ∉ ([] : List Char) := by simp
    simpa using afterLastSlash?_append parent this
  rw [h1]
  simp [List.getLast?_concat]

theorem blockTopic_getLast? (parent : List Char) (k : Nat) :
    ∃ d, d < 10 ∧ (blockTopic parent k).getLast? = some (digitChar d) := by
  have hne := natChars_ne_nil k
  have hsplit := List.dropLast_append_getLast hne
  obtain ⟨d, hd, hcd⟩ : ∃ d, d < 10 ∧ (natChars k).getLast hne = digitChar d := by
    have hmem : (natChars k).getLast hne ∈ natChars k := List.getLast_mem hne
    obtain ⟨d, hd, hc⟩ := mem_natChars hmem
    exact ⟨d, hd, hc⟩
  refine ⟨d, hd, ?_⟩
  have : blockTopic parent k =
      (parent ++ '/' :: (natChars k).dropLast) ++ [(natChars k).getLast hne] := by
    unfold blockTopic
    rw [List.append_assoc]
    simp [hsplit]
  rw [this, List.getLast?_concat, hcd]

theorem parse_block_topic (parent : List Char) (k : Nat) (data : List Char)
    (nb eb : Int) :
    _parse_block_publish (blockTopic parent k) data nb eb =
      if (k : Int) = eb then
        ⟨(k : Int), nb, if (k : Int) = nb - 1 then 0 else (k : Int) + 1⟩
      else ⟨-1, nb, eb⟩ := by
  have h1 : afterLastSlash? (blockTopic parent k) = some (natChars k) :=
    afterLastSlash?_append parent (slash_not_mem_natChars k)
  obtain ⟨d, hd, hlast⟩ := blockTopic_getLast? parent k
  have hne : digitChar d ≠ '/' := (digit_props d hd).2.2.2.2.1
  unfold _parse_block_publish
  rw [h1]
  simp only [hlast, Option.some.injEq, hne, if_false, atoi_natChars]

/-! Helper lemmas about the manifest receive callback. -/

theorem on_pub_size (parent : List Char) (data : List Nat) (s : ManifestState) :
    suit_mqtt_sn_on_pub_manifest (sizeTopic parent) data s =
      { s with num_manifest_blocks := atoi (charsOfBytes data) } := by
  unfold suit_mqtt_sn_on_pub_manifest
  rw [parse_size_topic]
  rfl

theorem on_pub_accept (parent : List Char) (k : Nat) (p : List Nat)
    (s : ManifestState) (N : Int)
    (hnum : s.num_manifest_blocks = N)
    (hexp : s.expected_manifest_block = (k : Int)) :
    suit_mqtt_sn_on_pub_manifest (blockTopic parent k) p s =
      { num_manifest_blocks := N
        expected_manifest_block := if (k : Int) = N - 1 then 0 else (k : Int) + 1
        manifest_buf := memcpyAt s.manifest_buf (k * CONFIG_SUIT_MQTT_SN_BLOCKSIZE) p
        current_num := k % 65536
        current_len := p.length
        msgs := s.msgs ++ [(k : Int)] } := by
  have hparse : _parse_block_publish (blockTopic parent k) (charsOfBytes p)
      s.num_manifest_blocks s.expected_manifest_block =
      ⟨(k : Int), N, if (k : Int) = N - 1 then 0 else (k : Int) + 1⟩ := by
    rw [parse_block_topic, hexp, hnum, if_pos rfl]
  unfold suit_mqtt_sn_on_pub_manifest
  rw [hparse]
  rfl

theorem on_pub_reject (parent : List Char) (k : Nat) (p : List Nat)
    (s : ManifestState)
    (h : s.expected_manifest_block ≠ (k : Int)) :
    suit_mqtt_sn_on_pub_manifest (blockTopic parent k) p s = s := by
  have hparse : _parse_block_publish (blockTopic parent k) (charsOfBytes p)
      s.num_manifest_blocks s.expected_manifest_block =
      ⟨-1, s.num_manifest_blocks, s.expected_manifest_block⟩ := by
    rw [parse_block_topic, if_neg (fun hc => h hc.symm)]
  unfold suit_mqtt_sn_on_pub_manifest
  rw [hparse]
  rfl

theorem deliverBlocks_spec (parent : List Char) :
    ∀ (ps : List (List Nat)) (k : Nat) (s : ManifestState) (N : Int),
      s.num_manifest_blocks = N →
      s.expected_manifest_block = (k : Int) →
      (k : Int) + ps.length = N →
      (∀ j, j + 1 < ps.length → (ps.getD j []).length = CONFIG_SUIT_MQTT_SN_BLOCKSIZE) →
      (deliverBlocks parent ps k s).num_manifest_blocks = N ∧
      (deliverBlocks parent ps k s).msgs =
        s.msgs ++ (List.range ps.length).map (fun j => ((k + j : Nat) : Int)) ∧
      (ps ≠ [] → (deliverBlocks parent ps k s).expected_manifest_block = 0 ∧
        (deliverBlocks parent ps k s).current_len = (ps.getLast?.getD []).length) ∧
      (∀ i : Nat, (deliverBlocks parent ps k s).manifest_buf i =
        if k * CONFIG_SUIT_MQTT_SN_BLOCKSIZE ≤ i ∧
            i < k * CONFIG_SUIT_MQTT_SN_BLOCKSIZE + sumLens ps then
          ps.flatten.getD (i - k * CONFIG_SUIT_MQTT_SN_BLOCKSIZE) 0
        else s.manifest_buf i) := by
  intro ps
  induction ps with
  | nil =>
    intro k s N h1 h2 h3 _h4
    refine ⟨h1, by simp [deliverBlocks], by simp, ?_⟩
    intro i
    rw [if_neg]
    · rfl
    · simp only [sumLens, List.map_nil, List.sum_nil, CONFIG_SUIT_MQTT_SN_BLOCKSIZE]
      omega
  | cons p rest ih =>
    intro k s N h1 h2 h3 h4
    have hstep := on_pub_accept parent k p s N h1 h2
    have hdel : deliverBlocks parent (p :: rest) k s =
        deliverBlocks parent rest (k + 1)
          (suit_mqtt_sn_on_pub_manifest (blockTopic parent k) p s) := rfl
    by_cases hrest : rest = []
    · subst hrest
      have hkN : (k : Int) = N - 1 := by
        simp only [List.length_cons, List.length_nil] at h3
        push_cast at h3
        omega
      rw [hdel, hstep]
      refine ⟨rfl, ?_, fun _ => ⟨?_, ?_⟩, ?_⟩
      · show s.msgs ++ [(k : Int)] = s.msgs ++ _
        simp [List.range_succ]
      · show (if (k : Int) = N - 1 then (0 : Int) else (k : Int) + 1) = 0
        exact if_pos hkN
      · show p.length = ([p].getLast?.getD []).length
        simp
      · intro i
        show memcpyAt s.manifest_buf (k * CONFIG_SUIT_MQTT_SN_BLOCKSIZE) p i = _
        simp only [memcpyAt, sumLens, List.map_cons, List.map_nil, List.sum_cons,
          List.sum_nil, List.flatten_cons, List.flatten_nil, List.append_nil,
          Nat.add_zero]
    · have hlen : 0 < rest.length := List.length_pos.mpr hrest
      have hkN : ¬ ((k : Int) = N - 1) := by
        simp only [List.length_cons] at h3
        push_cast at h3
        omega
      have hp : p.length = CONFIG_SUIT_MQTT_SN_BLOCKSIZE := by
        have := h4 0 (by simp only [List.length_cons]; omega)
        simpa using this
      set s1 : ManifestState :=
        { num_manifest_blocks := N
          expected_manifest_block := if (k : Int) = N - 1 then 0 else (k : Int) + 1
          manifest_buf := memcpyAt s.manifest_buf (k * CONFIG_SUIT_MQTT_SN_BLOCKSIZE) p
          current_num := k % 65536
          current_len := p.length
          msgs := s.msgs ++ [(k : Int)] } with hs1
      have h1' : s1.num_manifest_blocks = N := rfl
      have h2' : s1.expected_manifest_block = ((k + 1 : Nat) : Int) := by
        simp only [hs1, if_neg hkN]
        push_cast
        ring
      have h3' : ((k + 1 : Nat) : Int) + rest.length = N := by
        simp only [List.length_cons] at h3
        push_cast at h3 ⊢
        omega
      have h4' : ∀ j, j + 1 < rest.length →
          (rest.getD j []).length = CONFIG_SUIT_MQTT_SN_BLOCKSIZE := by
        intro j hj
        have := h4 (j + 1) (by simp only [List.length_cons]; omega)
        simpa [List.getD_cons_succ] using this
      obtain ⟨ihnum, ihmsgs, ihrest, ihbuf⟩ := ih (k + 1) s1 N h1' h2' h3' h4'
      rw [hdel, hstep]
      refine ⟨ihnum, ?_, ?_, ?_⟩
      · rw [ihmsgs]
        have hmsg1 : s1.msgs = s.msgs ++ [(k : Int)] := rfl
        rw [hmsg1, List.append_assoc]
        congr 1
        rw [List.length_cons, List.range_succ_eq_map, List.map_cons, List.map_map]
        simp only [Nat.add_zero, List.singleton_append, List.cons.injEq, true_and]
        apply List.map_congr_left
        intro j _
        simp only [Function.comp_apply]
        congr 1
        omega
      · intro _
        obtain ⟨q, rest', rfl⟩ := List.exists_cons_of_ne_nil hrest
        refine ⟨(ihrest (by simp)).1, ?_⟩
        rw [(ihrest (by simp)).2, List.getLast?_cons_cons]
      · intro i
        rw [ihbuf i]
        have hbufs1 : s1.manifest_buf i =
            if k * CONFIG_SUIT_MQTT_SN_BLOCKSIZE ≤ i ∧
                i < k * CONFIG_SUIT_MQTT_SN_BLOCKSIZE + p.length then
              p.getD (i - k * CONFIG_SUIT_MQTT_SN_BLOCKSIZE) 0
            else s.manifest_buf i := rfl
        rw [hbufs1]
        have hsum : sumLens (p :: rest) = CONFIG_SUIT_MQTT_SN_BLOCKSIZE + sumLens rest := by
          simp only [sumLens, List.map_cons, List.sum_cons, hp]
        have hflat : (p :: rest).flatten = p ++ rest.flatten := List.flatten_cons
        rw [hsum, hflat, hp]
        simp only [CONFIG_SUIT_MQTT_SN_BLOCKSIZE] at hp ⊢
        by_cases hC : k * 64 ≤ i ∧ i < k * 64 + (64 + sumLens rest)
        · rw [if_pos hC]
          by_cases hB : i < k * 64 + 64
          · rw [if_neg (show ¬((k + 1) * 64 ≤ i ∧
                i < (k + 1) * 64 + sumLens rest) by omega),
              if_pos (show k * 64 ≤ i ∧ i < k * 64 + 64 from ⟨hC.1, hB⟩)]
            exact (List.getD_append p rest.flatten 0 (i - k * 64) (by omega)).symm
          · rw [if_pos (show (k + 1) * 64 ≤ i ∧
                i < (k + 1) * 64 + sumLens rest from ⟨by omega, by omega⟩)]
            rw [List.getD_append_right p rest.flatten 0 (i - k * 64) (by omega)]
            congr 1
            omega
        · rw [if_neg hC,
            if_neg (show ¬((k + 1) * 64 ≤ i ∧ i < (k + 1) * 64 + sumLens rest) by omega),
            if_neg (show ¬(k * 64 ≤ i ∧ i < k * 64 + 64) by omega)]

theorem sumLens_full (ps : List (List Nat)) (hne : ps ≠ [])
    (hfull : ∀ j, j + 1 < ps.length →
      (ps.getD j []).length = CONFIG_SUIT_MQTT_SN_BLOCKSIZE) :
    sumLens ps =
      (ps.length - 1) * CONFIG_SUIT_MQTT_SN_BLOCKSIZE + (ps.getLast?.getD []).length := by
  induction ps with
  | nil => cases hne rfl
  | cons p rest ih =>
    cases rest with
    | nil => simp [sumLens]
    | cons q rest' =>
      have hp : p.length = CONFIG_SUIT_MQTT_SN_BLOCKSIZE := by
        have := hfull 0 (by simp only [List.length_cons]; omega)
        simpa using this
      have ih' := ih (by simp)
        (fun j hj => by
          have := hfull (j + 1) (by simp only [List.length_cons] at hj ⊢; omega)
          simpa [List.getD_cons_succ] using this)
      have hsplit : sumLens (p :: q :: rest') = p.length + sumLens (q :: rest') := by
        simp [sumLens]
      rw [hsplit, hp, ih', List.getLast?_cons_cons]
      simp only [List.length_cons, CONFIG_SUIT_MQTT_SN_BLOCKSIZE]
      omega

theorem countP_completes_range (N : Nat) (hN : 1 ≤ N) (hle : N ≤ 65536) :
    List.countP (fun v => manifestMsgCompletes (N : Int) v)
      (List.map (fun (j : Nat) => (j : Int)) (List.range N)) = 1 := by
  obtain ⟨M, rfl⟩ : ∃ M, N = M + 1 := ⟨N - 1, by omega⟩
  rw [List.countP_map, List.range_succ, List.countP_append]
  have h1 : List.countP
      ((fun v => manifestMsgCompletes ((M + 1 : Nat) : Int) v) ∘ (fun (j : Nat) => (j : Int)))
      (List.range M) = 0 := by
    rw [List.countP_eq_zero]
    intro j hj
    have hjM : j < M := List.mem_range.mp hj
    simp only [Function.comp_apply, manifestMsgCompletes, decide_eq_true_eq]
    have hmod : ((j : Int)) % 65536 = (j : Int) :=
      Int.emod_eq_of_lt (Int.ofNat_nonneg j) (by exact_mod_cast (by omega : j < 65536))
    rw [hmod]
    push_cast
    omega
  have h2 : List.countP
      ((fun v => manifestMsgCompletes ((M + 1 : Nat) : Int) v) ∘ (fun (j : Nat) => (j : Int)))
      [M] = 1 := by
    have hmod : ((M : Int)) % 65536 = (M : Int) :=
      Int.emod_eq_of_lt (Int.ofNat_nonneg M) (by exact_mod_cast (by omega : M < 65536))
    simp only [List.countP_cons, List.countP_nil, Function.comp_apply,
      manifestMsgCompletes, decide_eq_true_eq, hmod]
    rw [if_pos (by push_cast; ring)]
  rw [h1, h2]

/-! Claim theorems. -/

/-- C1: the claim says the copy of each accepted manifest block into
`_manifest_buf` at offset `index * CONFIG_SUIT_MQTT_SN_BLOCKSIZE` is
bounds-checked against `SUIT_MANIFEST_BUFSIZE`.  The code has no such check:
after a size announcement of 11 blocks on topic `"p/"` and in-order delivery
of blocks 0..10 with 64-byte payloads (each byte 7), the accepted block 10 is
`memcpy`'d at offset 640, writing byte index `SUIT_MANIFEST_BUFSIZE` (and
beyond) of the 640-byte buffer, which was 0 beforehand. -/
theorem c1_manifest_copy_overflows :
    (runManifestTransfer ['p'] [49, 49]
        (List.replicate 11 (List.replicate 64 7))
        initialManifestState).manifest_buf SUIT_MANIFEST_BUFSIZE = 7 ∧
    initialManifestState.manifest_buf SUIT_MANIFEST_BUFSIZE = 0 := by
  constructor
  · decide
  · rfl

/-- C3 (counterexample): the claim promises, for every sequence of block
payload lengths, a manifest buffer equal to the concatenation of the
payloads.  With N = 2 and payloads `[5]` and `[7]` delivered strictly in
order (both accepted, as the posted messages show), the buffer holds 0 at
byte 1 because block 1 is copied at offset `1 * CONFIG_SUIT_MQTT_SN_BLOCKSIZE
= 64`, so its first bytes are not the concatenation `[5, 7]`. -/
theorem c3_short_block_not_concatenation :
    (runManifestTransfer ['p'] [50] [[5], [7]] initialManifestState).msgs = [0, 1] ∧
    List.map (runManifestTransfer ['p'] [50] [[5], [7]] initialManifestState).manifest_buf
        (List.range 2) ≠ [5, 7] := by
  constructor
  · decide
  · decide

/-- C3 (amended): for every block count N ≥ 1 and every payload sequence in
which each block except the last carries exactly
CONFIG_SUIT_MQTT_SN_BLOCKSIZE bytes and the total fits the manifest buffer,
delivering the size announcement followed by blocks 0..N-1 strictly in order
from a fresh transfer state reconstructs the concatenation of the payloads in
`_manifest_buf`, posts one `SUIT_MSG_MANIFEST` message per block of which
exactly one satisfies the thread's completion test, and the length handed to
`suit_parse` on completion is
`(N - 1) * CONFIG_SUIT_MQTT_SN_BLOCKSIZE + length_of_last_block`. -/
theorem c3_in_order_transfer (parent : List Char) (N : Nat) (ps : List (List Nat))
    (s0 : ManifestState) (hN : 1 ≤ N) (hlen : ps.length = N)
    (hfull : ∀ j, j + 1 < ps.length →
      (ps.getD j []).length = CONFIG_SUIT_MQTT_SN_BLOCKSIZE)
    (hcap : (N - 1) * CONFIG_SUIT_MQTT_SN_BLOCKSIZE + (ps.getLast?.getD []).length
      ≤ SUIT_MANIFEST_BUFSIZE)
    (hexp : s0.expected_manifest_block = 0) (hmsgs0 : s0.msgs = []) :
    (∀ i, i < (N - 1) * CONFIG_SUIT_MQTT_SN_BLOCKSIZE + (ps.getLast?.getD []).length →
      (runManifestTransfer parent (natBytes N) ps s0).manifest_buf i
        = ps.flatten.getD i 0) ∧
    ps.flatten.length
      = (N - 1) * CONFIG_SUIT_MQTT_SN_BLOCKSIZE + (ps.getLast?.getD []).length ∧
    (runManifestTransfer parent (natBytes N) ps s0).msgs
      = List.map (fun (j : Nat) => (j : Int)) (List.range N) ∧
    List.countP (fun v => manifestMsgCompletes (N : Int) v)
      (runManifestTransfer parent (natBytes N) ps s0).msgs = 1 ∧
    parseLen (runManifestTransfer parent (natBytes N) ps s0).num_manifest_blocks
        (runManifestTransfer parent (natBytes N) ps s0).current_len
      = (((N - 1) * CONFIG_SUIT_MQTT_SN_BLOCKSIZE
          + (ps.getLast?.getD []).length : Nat) : Int) := by
  have hps_ne : ps ≠ [] := List.length_pos.mp (by omega)
  have hsz := on_pub_size parent (natBytes N) s0
  rw [charsOfBytes_natBytes, atoi_natChars] at hsz
  have hrun : runManifestTransfer parent (natBytes N) ps s0 =
      deliverBlocks parent ps 0 { s0 with num_manifest_blocks := (N : Int) } := by
    unfold runManifestTransfer
    rw [hsz]
  obtain ⟨hnum, hmsgs, hlast, hbuf⟩ :=
    deliverBlocks_spec parent ps 0 { s0 with num_manifest_blocks := (N : Int) }
      (N : Int) rfl (by simpa using hexp) (by rw [hlen]; push_cast; ring) hfull
  have hsum : sumLens ps =
      (N - 1) * CONFIG_SUIT_MQTT_SN_BLOCKSIZE + (ps.getLast?.getD []).length := by
    rw [sumLens_full ps hps_ne hfull, hlen]
  have hmsgs' : (runManifestTransfer parent (natBytes N) ps s0).msgs
      = List.map (fun (j : Nat) => (j : Int)) (List.range N) := by
    rw [hrun, hmsgs, hlen]
    have : ({ s0 with num_manifest_blocks := (N : Int) } : ManifestState).msgs
        = s0.msgs := rfl
    rw [this, hmsgs0, List.nil_append]
    apply List.map_congr_left
    intro j _
    simp
  refine ⟨?_, ?_, hmsgs', ?_, ?_⟩
  · intro i hi
    rw [hrun, hbuf i, if_pos ⟨by omega, by rw [hsum]; omega⟩]
    simp
  · rw [List.length_flatten]
    rw [← hsum]
    rfl
  · rw [hmsgs']
    exact countP_completes_range N hN
      (by
        simp only [CONFIG_SUIT_MQTT_SN_BLOCKSIZE, SUIT_MANIFEST_BUFSIZE] at hcap
        omega)
  · rw [hrun]
    rw [show (deliverBlocks parent ps 0
        { s0 with num_manifest_blocks := (N : Int) }).num_manifest_blocks
      = (N : Int) from hnum]
    rw [(hlast hps_ne).2]
    unfold parseLen
    have hc : ((N - 1 : Nat) : Int) = (N : Int) - 1 := by
      have h := (Nat.cast_sub hN : ((N - 1 : Nat) : Int) = (N : Int) - (1 : Nat))
      simpa using h
    push_cast [hc]
    ring

/-- Witness for the amended C3: a 3-block transfer with payload lengths
64, 64, 1 posts messages 0, 1, 2 of which exactly one passes the completion
test. -/
theorem c3_in_order_transfer_witness :
    (runManifestTransfer ['p'] (natBytes 3)
        [List.replicate 64 1, List.replicate 64 2, [9]] initialManifestState).msgs
      = List.map (fun (j : Nat) => (j : Int)) (List.range 3) ∧
    List.countP (fun v => manifestMsgCompletes ((3 : Nat) : Int) v)
      (runManifestTransfer ['p'] (natBytes 3)
        [List.replicate 64 1, List.replicate 64 2, [9]] initialManifestState).msgs
      = 1 := by
  have h := c3_in_order_transfer ['p'] 3
    [List.replicate 64 1, List.replicate 64 2, [9]] initialManifestState
    (by decide) (by decide)
    (by
      intro j hj
      have hj2 : j < 2 := by
        simp only [List.length_cons, List.length_nil] at hj
        omega
      interval_cases j <;> decide)
    (by decide) rfl rfl
  exact ⟨h.2.2.1, h.2.2.2.1⟩

/-- C4: delivering block `k` while some earlier block has not been accepted
yet (the expected-block counter is still below `k`) is rejected: the whole
transfer state — reassembly buffer, counters, and the queue of posted
messages — is left unchanged. -/
theorem c4_out_of_order_rejected (parent : List Char) (k : Nat) (p : List Nat)
    (s : ManifestState) (h : s.expected_manifest_block < (k : Int)) :
    suit_mqtt_sn_on_pub_manifest (blockTopic parent k) p s = s :=
  on_pub_reject parent k p s (ne_of_lt h)

/-- Witness for C4: with two blocks announced and block 0 still outstanding,
delivering block 1 leaves the state untouched. -/
theorem c4_out_of_order_rejected_witness :
    suit_mqtt_sn_on_pub_manifest (blockTopic ['p'] 1) [5]
        { num_manifest_blocks := 2
          expected_manifest_block := 0
          manifest_buf := fun _ => 0
          current_num := 0
          current_len := 0
          msgs := [] } =
      { num_manifest_blocks := 2
        expected_manifest_block := 0
        manifest_buf := fun _ => 0
        current_num := 0
        current_len := 0
        msgs := [] } :=
  c4_out_of_order_rejected ['p'] 1 [5] _ (by decide)

/-- C10: when the final block (index `num_blocks - 1`) is accepted,
`_parse_block_publish` resets the expected-block counter to 0 instead of
advancing it, so a further block-0 publish through the same counters is
accepted again even though no new size announcement has arrived in
between. -/
theorem c10_final_block_resets_expected (parent parent2 : List Char) (N : Nat)
    (p q : List Nat) (s : ManifestState) (hN : 1 ≤ N)
    (hnum : s.num_manifest_blocks = (N : Int))
    (hexp : s.expected_manifest_block = (N : Int) - 1) :
    (suit_mqtt_sn_on_pub_manifest (blockTopic parent (N - 1)) p s).expected_manifest_block
        = 0 ∧
    (suit_mqtt_sn_on_pub_manifest (blockTopic parent (N - 1)) p s).msgs
        = s.msgs ++ [((N - 1 : Nat) : Int)] ∧
    (suit_mqtt_sn_on_pub_manifest (blockTopic parent2 0) q
        (suit_mqtt_sn_on_pub_manifest (blockTopic parent (N - 1)) p s)).msgs
      = (suit_mqtt_sn_on_pub_manifest (blockTopic parent (N - 1)) p s).msgs
          ++ [(0 : Int)] := by
  have hcast : ((N - 1 : Nat) : Int) = (N : Int) - 1 := by
    have h := (Nat.cast_sub hN : ((N - 1 : Nat) : Int) = (N : Int) - (1 : Nat))
    simpa using h
  have hexp' : s.expected_manifest_block = ((N - 1 : Nat) : Int) := by
    rw [hexp, hcast]
  have hstep := on_pub_accept parent (N - 1) p s (N : Int) hnum hexp'
  have hif : (if ((N - 1 : Nat) : Int) = (N : Int) - 1 then (0 : Int)
      else ((N - 1 : Nat) : Int) + 1) = 0 := if_pos hcast
  refine ⟨?_, ?_, ?_⟩
  · rw [hstep]
    exact hif
  · rw [hstep]
  · have h1 : (suit_mqtt_sn_on_pub_manifest (blockTopic parent (N - 1)) p s).num_manifest_blocks
        = (N : Int) := by rw [hstep]
    have h2 : (suit_mqtt_sn_on_pub_manifest (blockTopic parent (N - 1)) p s).expected_manifest_block
        = ((0 : Nat) : Int) := by
      rw [hstep]
      simpa using hif
    have hstep2 := on_pub_accept parent2 0 q _ (N : Int) h1 h2
    rw [hstep2]
    simp

/-- Witness for C10: after the final block of a 2-block transfer, the
expected counter is 0 and a block-0 publish is accepted again. -/
theorem c10_final_block_resets_expected_witness :
    (suit_mqtt_sn_on_pub_manifest (blockTopic ['p'] (2 - 1)) [3]
        { num_manifest_blocks := 2
          expected_manifest_block := 1
          manifest_buf := fun _ => 0
          current_num := 0
          current_len := 0
          msgs := [] }).expected_manifest_block = 0 ∧
    (suit_mqtt_sn_on_pub_manifest (blockTopic ['p'] (2 - 1)) [3]
        { num_manifest_blocks := 2
          expected_manifest_block := 1
          manifest_buf := fun _ => 0
          current_num := 0
          current_len := 0
          msgs := [] }).msgs = [] ++ [((2 - 1 : Nat) : Int)] ∧
    (suit_mqtt_sn_on_pub_manifest (blockTopic ['p'] 0) [4]
        (suit_mqtt_sn_on_pub_manifest (blockTopic ['p'] (2 - 1)) [3]
          { num_manifest_blocks := 2
            expected_manifest_block := 1
            manifest_buf := fun _ => 0
            current_num := 0
            current_len := 0
            msgs := [] })).msgs
      = (suit_mqtt_sn_on_pub_manifest (blockTopic ['p'] (2 - 1)) [3]
          { num_manifest_blocks := 2
            expected_manifest_block := 1
            manifest_buf := fun _ => 0
            current_num := 0
            current_len := 0
            msgs := [] }).msgs ++ [(0 : Int)] :=
  c10_final_block_resets_expected ['p'] ['p'] 2 [3] [4] _ (by decide) (by decide) (by decide)

/-- C2 (counterexample): the claim says a disconnected-gateway subscribe
failure triggers exactly one reconnect and one retry, with any further
failure surfaced.  When the retried subscribe fails again with
`EMCUTE_GWDISCON` and the reconnect succeeds again, the `goto sub` loop
performs a second reconnect and a third subscribe attempt instead of
surfacing the failure, and ends up returning success. -/
theorem c2_retry_not_bounded :
    subLoop [EmcuteRes.gwdiscon, EmcuteRes.gwdiscon, EmcuteRes.ok] [true, true] 0 0
      = ⟨some 0, 3, 2⟩ := by
  decide

/-- C2 (amended): each disconnected-gateway subscribe failure triggers one
reconnect to the last known good endpoint; while reconnects succeed the
subscribe is retried without bound (k disconnects cost k reconnects and
k + 1 subscribe attempts before an eventual success); a failed reconnect or
a non-disconnect subscribe error is surfaced immediately (return 1) with no
further attempt. -/
theorem c2_retry_loop (k sa ra : Nat) (rs : List EmcuteRes) (cs : List Bool) :
    subLoop (List.replicate k EmcuteRes.gwdiscon ++ [EmcuteRes.ok])
        (List.replicate k true) sa ra = ⟨some 0, sa + (k + 1), ra + k⟩ ∧
    subLoop (EmcuteRes.gwdiscon :: rs) (false :: cs) sa ra = ⟨some 1, sa + 1, ra + 1⟩ ∧
    subLoop (EmcuteRes.err :: rs) cs sa ra = ⟨some 1, sa + 1, ra⟩ := by
  refine ⟨?_, rfl, rfl⟩
  induction k generalizing sa ra with
  | zero => rfl
  | succ k ih =>
    have hstep : subLoop (List.replicate (k + 1) EmcuteRes.gwdiscon ++ [EmcuteRes.ok])
        (List.replicate (k + 1) true) sa ra =
        subLoop (List.replicate k EmcuteRes.gwdiscon ++ [EmcuteRes.ok])
          (List.replicate k true) (sa + 1) (ra + 1) := rfl
    rw [hstep, ih (sa + 1) (ra + 1)]
    have h1 : (sa + 1) + (k + 1) = sa + (k + 1 + 1) := by omega
    have h2 : (ra + 1) + k = ra + (k + 1) := by omega
    rw [h1, h2]

/-- C5 (counterexample): the claim says a new trigger event observed while
the coordinator waits for the next firmware block aborts the current fetch,
with no storage finish.  In the code, a `SUIT_MSG_TRIGGER` received between
firmware blocks 0 and 1 of a 2-block fetch falls into the `default:` branch
and is discarded: the fetch keeps going, writes both blocks, calls
`suit_storage_finish`, and returns success. -/
theorem c5_trigger_does_not_abort :
    suit_mqtt_sn_fetch_loop (some 100) 2
        [FetchMsg.firmware 0 64 0 0, FetchMsg.trigger, FetchMsg.firmware 1 36 0 0] []
      = ⟨some 0, [StorageCall.write 0 64, StorageCall.write 64 36, StorageCall.finish]⟩ := by
  decide

/-- C5 (amended): a trigger (or manifest) message received while
`suit_mqtt_sn_fetch` waits for the next firmware block is consumed by the
`default:` branch with only a warning: the fetch continues exactly as if the
message had not arrived, and the new trigger is not acted upon during the
fetch. -/
theorem c5_trigger_ignored (imageSize? : Option Nat) (num_fw_blocks : Int)
    (rest : List FetchMsg) (acc : List StorageCall) (v : Int) :
    suit_mqtt_sn_fetch_loop imageSize? num_fw_blocks (FetchMsg.trigger :: rest) acc
      = suit_mqtt_sn_fetch_loop imageSize? num_fw_blocks rest acc ∧
    suit_mqtt_sn_fetch_loop imageSize? num_fw_blocks (FetchMsg.manifest v :: rest) acc
      = suit_mqtt_sn_fetch_loop imageSize? num_fw_blocks rest acc :=
  ⟨rfl, rfl⟩

/-- C6: a firmware block whose offset (`num * CONFIG_SUIT_MQTT_SN_BLOCKSIZE`)
plus payload length exceeds the image size declared in the manifest makes
`suit_mqtt_sn_fetch` return -1, and no storage-backend call is made for that
block. -/
theorem c6_image_overrun_no_write (image_size : Nat) (num_fw_blocks : Int)
    (num len : Nat) (wres fres : Int) (rest : List FetchMsg) (acc : List StorageCall)
    (hover : image_size < num * CONFIG_SUIT_MQTT_SN_BLOCKSIZE + len) :
    suit_mqtt_sn_fetch_loop (some image_size) num_fw_blocks
        (FetchMsg.firmware num len wres fres :: rest) acc = ⟨some (-1), acc⟩ := by
  simp only [suit_mqtt_sn_fetch_loop]
  rw [if_pos hover]

/-- Witness for C6: block 1 of 2 with 64 payload bytes against a declared
image size of 100 overruns (offset 64 + 64 > 100) and is rejected with no
storage call. -/
theorem c6_image_overrun_no_write_witness :
    suit_mqtt_sn_fetch_loop (some 100) 2 [FetchMsg.firmware 1 64 0 0] []
      = ⟨some (-1), []⟩ ∧
    (100 : Nat) < 1 * CONFIG_SUIT_MQTT_SN_BLOCKSIZE + 64 :=
  ⟨c6_image_overrun_no_write 100 2 1 64 0 0 [] [] (by decide), by decide⟩

/-- C7 (counterexample): the claim says the `mqtt://` scheme marker is
optional.  A trigger payload without it, such as `"gw/m"`, is rejected by
`_suit_handle_topic` with `-EINVAL` and nothing is subscribed. -/
theorem c7_missing_scheme_rejected :
    _suit_handle_topic ['g', 'w', '/', 'm'] [] [] = ⟨some (-22), none⟩ := by
  decide

/-- C7 (amended): the `mqtt://` scheme marker is mandatory: a payload
carrying it has the 7-character marker stripped (and `"/#"` appended) before
subscribing; a payload whose first 7 characters are not `mqtt://` is
rejected with `-EINVAL` and no subscribe occurs. -/
theorem c7_scheme_required (t : List Char) (subs : List EmcuteRes) (cs : List Bool) :
    (_suit_handle_topic (mqttScheme ++ t) subs cs).subTopic = some (t ++ ['/', '#']) ∧
    (∀ u : List Char, u.take 7 ≠ mqttScheme →
      _suit_handle_topic u subs cs = ⟨some (-22), none⟩) := by
  constructor
  · unfold _suit_handle_topic
    rw [if_pos (show (mqttScheme ++ t).take 7 = mqttScheme
      from List.take_left mqttScheme t)]
    have hdrop : (mqttScheme ++ t).drop 7 = t := List.drop_left mqttScheme t
    simp only [hdrop]
  · intro u hu
    unfold _suit_handle_topic
    rw [if_neg hu]

/-- Witness for the amended C7: with the scheme, `"mqtt://a"` leads to a
subscription to `"a/#"`; without it, `"x"` is rejected with `-EINVAL`. -/
theorem c7_scheme_required_witness :
    (_suit_handle_topic (mqttScheme ++ ['a']) [] []).subTopic
      = some (['a'] ++ ['/', '#']) ∧
    _suit_handle_topic ['x'] [] [] = ⟨some (-22), none⟩ :=
  ⟨(c7_scheme_required ['a'] [] []).1,
    (c7_scheme_required ['a'] [] []).2 ['x'] (by decide)⟩

/-- C8 (counterexample): the claim says no operation silently truncates a
topic name before using it.  `suit_mqtt_sn_fetch` copies its 130-character
topic into `_fw_topic` with `strncpy`, silently truncating it to
`SUIT_TOPIC_MAX - 1 = 127` characters, and hands the truncated name on to
the subscribe path. -/
theorem c8_fetch_truncates :
    fetchTopicCopy (mqttScheme ++ List.replicate 123 'a')
      ≠ mqttScheme ++ List.replicate 123 'a' ∧
    (suit_mqtt_sn_fetch_subscribe (mqttScheme ++ List.replicate 123 'a') [] []).subTopic
      = some (List.replicate 120 'a' ++ ['/', '#']) := by
  constructor
  · decide
  · decide

/-- C8 (amended): `sub()` does reject any topic longer than
`TOPIC_MAXLEN` with an error before attempting `emcute_sub`, but
`suit_mqtt_sn_fetch` first silently truncates its topic argument to
`SUIT_TOPIC_MAX - 1` characters and passes the truncated name to
`_suit_handle_topic` (discarding its result), so an over-long fetch topic is
truncated rather than rejected up front. -/
theorem c8_too_long_paths (t : List Char) (subs : List EmcuteRes) (cs : List Bool) :
    (TOPIC_MAXLEN < t.length → subFn t subs cs = ⟨some 1, 0, 0⟩) ∧
    (SUIT_TOPIC_MAX ≤ t.length →
      fetchTopicCopy t ≠ t ∧
      suit_mqtt_sn_fetch_subscribe t subs cs
        = _suit_handle_topic (t.take (SUIT_TOPIC_MAX - 1)) subs cs) := by
  constructor
  · intro h
    unfold subFn
    rw [if_pos h]
  · intro h
    simp only [SUIT_TOPIC_MAX] at h
    constructor
    · intro heq
      have hlen : (fetchTopicCopy t).length = 127 := by
        unfold fetchTopicCopy
        rw [List.length_take]
        simp only [SUIT_TOPIC_MAX]
        omega
      rw [heq] at hlen
      omega
    · rfl

set_option maxRecDepth 8192 in
/-- Witness for the amended C8: a 130-character topic is rejected by `sub()`
as too long, yet `suit_mqtt_sn_fetch` truncates it and passes the truncated
prefix along. -/
theorem c8_too_long_paths_witness :
    subFn (mqttScheme ++ List.replicate 123 'a') [] [] = ⟨some 1, 0, 0⟩ ∧
    (fetchTopicCopy (mqttScheme ++ List.replicate 123 'a')
        ≠ mqttScheme ++ List.replicate 123 'a' ∧
      suit_mqtt_sn_fetch_subscribe (mqttScheme ++ List.replicate 123 'a') [] []
        = _suit_handle_topic
            ((mqttScheme ++ List.replicate 123 'a').take (SUIT_TOPIC_MAX - 1)) [] []) :=
  ⟨(c8_too_long_paths (mqttScheme ++ List.replicate 123 'a') [] []).1 (by decide),
    (c8_too_long_paths (mqttScheme ++ List.replicate 123 'a') [] []).2 (by decide)⟩

/-- C9: after a completed update (completion message matched,
`suit_parse` returned `SUIT_OK`), a failed validation of the other boot
slot's header leads to the "update failed, hdr invalid" report: the thread
does not reboot, takes no retry action, and the device keeps running on the
current slot; the reboot action occurs only when
`riotboot_hdr_validate` returns 0 (valid). -/
theorem c9_header_invalid_no_reboot (N v parseRes validateRes : Int) :
    (manifest_msg_case N v parseRes validateRes = ThreadAct.reboot → validateRes = 0) ∧
    (v % 65536 = N - 1 → parseRes = 0 → validateRes ≠ 0 →
      manifest_msg_case N v parseRes validateRes = ThreadAct.hdrInvalid) := by
  constructor
  · intro h
    unfold manifest_msg_case at h
    split_ifs at h with h1 h2 h3
    simp_all
  · intro hc hp hv
    unfold manifest_msg_case
    rw [if_pos hc, if_neg (by simp [hp]), if_neg hv]

/-- Witness for C9: a completed 3-block update whose header validation
returns 5 (invalid) yields the `hdrInvalid` report, and the `reboot` action
implies a 0 (valid) validation result. -/
theorem c9_header_invalid_no_reboot_witness :
    manifest_msg_case 3 2 0 5 = ThreadAct.hdrInvalid ∧ (0 : Int) = 0 :=
  ⟨(c9_header_invalid_no_reboot 3 2 0 5).2 (by decide) rfl (by decide),
    (c9_header_invalid_no_reboot 3 2 0 0).1 (by decide)⟩

end SuitMqttSn
